import Mathlib

/-!
Shallow embedding of `src/examples/main-thread-dispatcher.cpp`.

The program spawns worker threads (`ThreadProgress`) that each perform
`ITERATIONS` units of work and, after each unit, emit a `Glib::Dispatcher`
notification that is delivered on the coordinator's main-loop thread, where
`progress_increment` runs.  The coordinator (`Application`) owns the main
loop, launches the 4 workers from a one-shot 3000 ms timeout, and quits the
loop once no worker remains unfinished.

The embedding models the sequential semantics that the main-loop thread
observes: the coordinator state is explicit, and cross-thread notifications
become a list of events (worker indices) folded over the state.  External
glib facilities (`g_return_if_fail`, `Glib::Rand::get_int_range`,
`connect_once`) are modelled from their documented contracts, as noted at
each definition.
-/

/-- The `ITERATIONS` enumerator of `ThreadProgress` (the per-worker target
iteration count). -/
def ITERATIONS : Nat := 10

/-- State of one `ThreadProgress` object.  `thread_` is `true` iff the
`std::thread*` member is non-null (a thread has been launched and not yet
joined); `progress_` is the `unsigned int` counter. -/
structure ThreadProgress where
  thread_ : Bool
  id_ : Nat
  progress_ : Nat
deriving Repr, DecidableEq

/-- The constructor `ThreadProgress::ThreadProgress(int the_id)`: null thread
handle, the given id, progress zero (`signal_increment_` is connected to
`progress_increment`, which the event semantics below realises). -/
def ThreadProgress.construct (the_id : Nat) : ThreadProgress :=
  { thread_ := false, id_ := the_id, progress_ := 0 }

/-- `ThreadProgress::id()`. -/
def ThreadProgress.id (tp : ThreadProgress) : Nat :=
  tp.id_

/-- `ThreadProgress::unfinished()`: `progress_ < ITERATIONS`. -/
def ThreadProgress.unfinished (tp : ThreadProgress) : Bool :=
  tp.progress_ < ITERATIONS

/-- `ThreadProgress::launch()`: creates the joinable thread, so the handle
becomes non-null. -/
def ThreadProgress.launch (tp : ThreadProgress) : ThreadProgress :=
  { tp with thread_ := true }

/-- `ThreadProgress::join()`: joins and deletes the thread, then sets the
handle back to null. -/
def ThreadProgress.join (tp : ThreadProgress) : ThreadProgress :=
  { tp with thread_ := false }

/-- `ThreadProgress::progress_increment()` (runs on the main-loop thread):
`++progress_`, then `signal_finished_()` is emitted iff the new progress is
`>= ITERATIONS`.  Returns the updated state and whether the finished signal
was emitted. -/
def ThreadProgress.progress_increment (tp : ThreadProgress) : ThreadProgress × Bool :=
  let tp' : ThreadProgress := { tp with progress_ := tp.progress_ + 1 }
  (tp', decide (tp'.progress_ ≥ ITERATIONS))

/-- Outcome of running `ThreadProgress::~ThreadProgress()`: whether a
critical diagnostic was logged and whether the process was aborted. -/
structure DestructorOutcome where
  criticalLogged : Bool
  processAborted : Bool
deriving Repr, DecidableEq

/-- The destructor `ThreadProgress::~ThreadProgress()`, which executes
`g_return_if_fail(thread_ == nullptr)`.  GLib's documented semantics of
`g_return_if_fail(expr)`: if `expr` is false, a critical message is logged
(`G_LOG_LEVEL_CRITICAL`) and the current function returns; critical messages
do not abort the process by default (only `G_LOG_LEVEL_ERROR` is always
fatal).  If `expr` is true nothing happens. -/
def ThreadProgress.destructor (tp : ThreadProgress) : DestructorOutcome :=
  if tp.thread_ then { criticalLogged := true, processAborted := false }
  else { criticalLogged := false, processAborted := false }

/-- GLib's documented contract for `Glib::Rand::get_int_range(begin, end)`
(`g_rand_int_range`): a value equally distributed over the half-open range
`[begin, end)`.  The draw is modelled from a raw random natural as
`begin + raw % (end - begin)`, which realises exactly that range. -/
def Rand.get_int_range (b e raw : Nat) : Nat :=
  b + raw % (e - b)

/-- Externally visible actions of the worker thread body. -/
inductive ThreadAction where
  | usleep (microseconds : Nat)
  | emit_increment
deriving Repr, DecidableEq

/-- `ThreadProgress::thread_function()`: loop `i` from `0` to
`ITERATIONS - 1`; each iteration sleeps `rand.get_int_range(2000, 20000)`
microseconds and then emits `signal_increment_()`.  `raws i` is the raw
random draw consumed by iteration `i`.  The body touches no other state. -/
def ThreadProgress.thread_function (raws : Nat → Nat) : List ThreadAction :=
  (List.range ITERATIONS).flatMap fun i =>
    [ThreadAction.usleep (Rand.get_int_range 2000 20000 (raws i)),
     ThreadAction.emit_increment]

/-- The operations of `ThreadProgress` that mutate its state. -/
inductive TPOp where
  | launch
  | join
  | progress_increment
deriving Repr, DecidableEq

/-- Apply one mutating `ThreadProgress` operation to a worker state. -/
def TPOp.apply (op : TPOp) (tp : ThreadProgress) : ThreadProgress :=
  match op with
  | .launch => tp.launch
  | .join => tp.join
  | .progress_increment => tp.progress_increment.1

/-- Apply a sequence of mutating operations, oldest first. -/
def TPOp.applyAll (ops : List TPOp) (tp : ThreadProgress) : ThreadProgress :=
  ops.foldl (fun s op => op.apply s) tp

/-- State of the `Application` as seen by the main-loop thread:
`progress_threads_` is the `std::vector<ThreadProgress*>` and `quitCalled`
records whether `main_loop_->quit()` has been called. -/
structure Application where
  progress_threads_ : List ThreadProgress
  quitCalled : Bool
deriving Repr, DecidableEq

/-- The body of `Application::Application()` without a construction failure:
4 workers with ids `1..4` are created and stored, and each worker's
`signal_finished()` is connected to `on_progress_finished` (realised by the
event semantics below). -/
def Application.construct : Application :=
  { progress_threads_ := (List.range 4).map fun i => ThreadProgress.construct (i + 1),
    quitCalled := false }

/-- The constructor loop of `Application::Application()` with an injected
failure: `failAt = some k` means the construction of worker `k` (0-based)
throws.  `stored` is the pointer vector, `none` standing for a null pointer.
On failure the `catch (...)` handler applies `DeletePtr` to every stored
pointer (deleting a null pointer is a no-op) and rethrows; the error value
lists the workers the handler destroyed, in vector order. -/
def Application.construct_loop (failAt : Option Nat) :
    Nat → Nat → List (Option ThreadProgress) →
    Except (List ThreadProgress) (List (Option ThreadProgress))
  | 0, _, stored => .ok stored
  | remaining + 1, i, stored =>
    if failAt = some i then
      .error (stored.filterMap id)
    else
      Application.construct_loop failAt remaining (i + 1)
        (stored.set i (some (ThreadProgress.construct (i + 1))))

/-- `Application::Application()` with a failure injected at worker `k`:
the vector starts as 4 null pointers and the loop runs until the failure. -/
def Application.construct_failing (failAt : Option Nat) :
    Except (List ThreadProgress) (List (Option ThreadProgress)) :=
  Application.construct_loop failAt 4 0 (List.replicate 4 none)

/-- `Application::on_progress_finished(ThreadProgress*)`: joins the given
worker, then quits the main loop iff `find_if(..., unfinished)` finds no
unfinished worker. -/
def Application.on_progress_finished (app : Application) (i : Nat) : Application :=
  let workers :=
    match app.progress_threads_[i]? with
    | none => app.progress_threads_
    | some tp => app.progress_threads_.set i tp.join
  if workers.all (fun tp => !tp.unfinished) then
    { progress_threads_ := workers, quitCalled := true }
  else
    { progress_threads_ := workers, quitCalled := app.quitCalled }

/-- Delivery of one `signal_increment_` notification for the worker at
vector index `i`, as processed on the main-loop thread.  The connected slot
is `progress_increment`; if it emits `signal_finished_`, the slot
`on_progress_finished` bound to that worker runs synchronously. -/
def Application.on_notified (app : Application) (i : Nat) : Application :=
  match app.progress_threads_[i]? with
  | none => app
  | some tp =>
    let r := tp.progress_increment
    let app' : Application :=
      { app with progress_threads_ := app.progress_threads_.set i r.1 }
    if r.2 then app'.on_progress_finished i else app'

/-- Fold a list of delivered notifications (worker indices, in delivery
order) over the coordinator state. -/
def Application.runEvents (app : Application) : List Nat → Application
  | [] => app
  | e :: es => (app.on_notified e).runEvents es

/-- Whether delivering a notification for worker `i` in state `app` would
emit that worker's `signal_finished_` (and hence invoke
`on_progress_finished`). -/
def Application.notifyFinishes (app : Application) (i : Nat) : Bool :=
  match app.progress_threads_[i]? with
  | none => false
  | some tp => tp.progress_increment.2

/-- The sequence of `on_progress_finished` invocations (by worker index)
triggered while delivering the given notifications. -/
def Application.finishLog (app : Application) : List Nat → List Nat
  | [] => []
  | e :: es =>
    (if app.notifyFinishes e then [e] else []) ++ (app.on_notified e).finishLog es

/-- The coordinator state with `n` workers (ids `1..n`) after
`launch_threads` has started every thread: this is the state from which the
workers' notifications are delivered. -/
def launchedApp (n : Nat) : Application :=
  { progress_threads_ := (List.range n).map fun i => (ThreadProgress.construct (i + 1)).launch,
    quitCalled := false }

/-- `Application::launch_threads()`: calls `launch` on every stored worker. -/
def Application.launch_threads (app : Application) : Application :=
  { app with progress_threads_ := app.progress_threads_.map ThreadProgress.launch }

/-- The one-shot timeout source installed by `Application::run()` via
`connect_once`: a `delayMs` timeout whose slot is `launch_threads`;
`fired` records whether the slot has already run (after which `connect_once`
keeps the source disconnected). -/
structure TimeoutSource where
  delayMs : Nat
  fired : Bool
deriving Repr, DecidableEq

/-- `Application::run()`: installs the one-shot 3000 ms timeout connected to
`launch_threads`, then enters the main loop. -/
def Application.run_install (app : Application) : Application × TimeoutSource :=
  (app, { delayMs := 3000, fired := false })

/-- One timer expiry delivered to the one-shot source on the loop thread:
with `connect_once`, the slot runs only if the source has not fired yet, and
the source is disconnected afterwards. -/
def timeoutTick (s : Application × TimeoutSource) : Application × TimeoutSource :=
  if s.2.fired then s
  else (s.1.launch_threads, { s.2 with fired := true })

/-- Deliver `n` timer expiries to the one-shot source. -/
def runTicks (s : Application × TimeoutSource) : Nat → Application × TimeoutSource
  | 0 => s
  | n + 1 => runTicks (timeoutTick s) n

/-- How many of `n` delivered timer expiries actually invoke the
`launch_threads` slot. -/
def launchInvocations (s : Application × TimeoutSource) : Nat → Nat
  | 0 => 0
  | n + 1 =>
    (if s.2.fired then 0 else 1) + launchInvocations (timeoutTick s) n

/-!
Helper lemmas: a pointwise description of the coordinator's worker vector
and how each delivered notification transforms it.
-/

@[simp]
theorem runEvents_nil (app : Application) : app.runEvents [] = app := rfl

@[simp]
theorem runEvents_cons (app : Application) (e : Nat) (es : List Nat) :
    app.runEvents (e :: es) = (app.on_notified e).runEvents es := rfl

@[simp]
theorem finishLog_nil (app : Application) : app.finishLog [] = [] := rfl

@[simp]
theorem finishLog_cons (app : Application) (e : Nat) (es : List Nat) :
    app.finishLog (e :: es) =
      (if app.notifyFinishes e then [e] else []) ++ (app.on_notified e).finishLog es := rfl

/-- Pointwise description of a coordinator state: `n` workers with ids
`1..n`, worker `i` at progress `c i`, its thread handle live exactly while
`c i < ITERATIONS`. -/
def WorkersAre (app : Application) (n : Nat) (c : Nat → Nat) : Prop :=
  app.progress_threads_.length = n ∧
  ∀ i, i < n → app.progress_threads_[i]? =
    some { thread_ := decide (c i < ITERATIONS), id_ := i + 1, progress_ := c i }

theorem WorkersAre.congr {app : Application} {n : Nat} {c c' : Nat → Nat}
    (h : WorkersAre app n c) (hc : ∀ i, i < n → c i = c' i) : WorkersAre app n c' := by
  refine ⟨h.1, fun i hi => ?_⟩
  rw [h.2 i hi, hc i hi]

theorem all_unfinished_eq (l : List ThreadProgress) (n : Nat) (c : Nat → Nat)
    (hlen : l.length = n)
    (hget : ∀ i, i < n → l[i]? =
      some { thread_ := decide (c i < ITERATIONS), id_ := i + 1, progress_ := c i }) :
    (l.all fun tp => !tp.unfinished) = decide (∀ i, i < n → ITERATIONS ≤ c i) := by
  by_cases hc : ∀ i, i < n → ITERATIONS ≤ c i
  · rw [decide_eq_true hc, List.all_eq_true]
    intro x hx
    rw [List.mem_iff_getElem] at hx
    obtain ⟨j, hj, hx⟩ := hx
    have hjn : j < n := hlen ▸ hj
    have h1 := (List.getElem?_eq_getElem hj).symm.trans (hget j hjn)
    have h2 := Option.some_inj.mp h1
    rw [← hx, h2]
    have := hc j hjn
    simp only [ThreadProgress.unfinished, Bool.not_eq_true', decide_eq_false_iff_not]
    omega
  · rw [decide_eq_false hc]
    push_neg at hc
    obtain ⟨j, hjn, hcj⟩ := hc
    have hj : j < l.length := hlen ▸ hjn
    have h1 := (List.getElem?_eq_getElem hj).symm.trans (hget j hjn)
    have h2 := Option.some_inj.mp h1
    rw [List.all_eq_false]
    refine ⟨l[j], List.getElem_mem hj, ?_⟩
    rw [h2]
    simp only [ThreadProgress.unfinished, Bool.not_eq_true', decide_eq_false_iff_not, not_not]
    omega

theorem on_notified_eq_some (app : Application) (i : Nat) (tp : ThreadProgress)
    (h : app.progress_threads_[i]? = some tp) :
    app.on_notified i =
      (if tp.progress_increment.2 then
        ({ app with
            progress_threads_ :=
              app.progress_threads_.set i tp.progress_increment.1 } : Application).on_progress_finished i
      else
        { app with
            progress_threads_ := app.progress_threads_.set i tp.progress_increment.1 }) := by
  unfold Application.on_notified
  rw [h]

theorem on_progress_finished_eq (app : Application) (i : Nat) (tp : ThreadProgress)
    (h : app.progress_threads_[i]? = some tp) :
    app.on_progress_finished i =
      (if (app.progress_threads_.set i tp.join).all (fun tp => !tp.unfinished) then
        { progress_threads_ := app.progress_threads_.set i tp.join, quitCalled := true }
      else
        { progress_threads_ := app.progress_threads_.set i tp.join,
          quitCalled := app.quitCalled }) := by
  unfold Application.on_progress_finished
  rw [h]

theorem on_notified_oob (app : Application) (n e : Nat)
    (hlen : app.progress_threads_.length = n) (he : n ≤ e) :
    app.on_notified e = app ∧ app.notifyFinishes e = false := by
  have hnone : app.progress_threads_[e]? = none := List.getElem?_eq_none (by omega)
  constructor
  · unfold Application.on_notified
    rw [hnone]
  · unfold Application.notifyFinishes
    rw [hnone]

theorem notifyFinishes_eq (app : Application) (n e : Nat) (c : Nat → Nat)
    (hW : WorkersAre app n c) (he : e < n) :
    app.notifyFinishes e = decide (ITERATIONS ≤ c e + 1) := by
  unfold Application.notifyFinishes
  rw [hW.2 e he]
  rfl

theorem on_notified_spec (app : Application) (n e : Nat) (c : Nat → Nat)
    (hW : WorkersAre app n c) (he : e < n) :
    WorkersAre (app.on_notified e) n (fun i => if i = e then c i + 1 else c i) ∧
    (app.on_notified e).quitCalled =
      (if ∀ i, i < n → ITERATIONS ≤ (if i = e then c i + 1 else c i) then true
       else app.quitCalled) := by
  have hlen := hW.1
  have hel : e < app.progress_threads_.length := by omega
  have hget := hW.2 e he
  rw [on_notified_eq_some app e _ hget]
  have hpi1 : ({ thread_ := decide (c e < ITERATIONS), id_ := e + 1, progress_ := c e } : ThreadProgress).progress_increment.1 =
      { thread_ := decide (c e < ITERATIONS), id_ := e + 1, progress_ := c e + 1 } := rfl
  have hpi2 : ({ thread_ := decide (c e < ITERATIONS), id_ := e + 1, progress_ := c e } : ThreadProgress).progress_increment.2 =
      decide (ITERATIONS ≤ c e + 1) := rfl
  rw [hpi2, hpi1]
  by_cases hfin : ITERATIONS ≤ c e + 1
  · rw [decide_eq_true hfin, if_pos rfl]
    have hget' : (app.progress_threads_.set e
        { thread_ := decide (c e < ITERATIONS), id_ := e + 1, progress_ := c e + 1 })[e]? =
        some { thread_ := decide (c e < ITERATIONS), id_ := e + 1, progress_ := c e + 1 } :=
      List.getElem?_set_self hel
    rw [on_progress_finished_eq _ e _ hget']
    rw [List.set_set]
    have hdesc : ∀ i, i < n →
        (app.progress_threads_.set e
          ({ thread_ := decide (c e < ITERATIONS), id_ := e + 1, progress_ := c e + 1 } : ThreadProgress).join)[i]? =
        some { thread_ := decide ((if i = e then c i + 1 else c i) < ITERATIONS), id_ := i + 1, progress_ := (if i = e then c i + 1 else c i) } := by
      intro i hi
      by_cases hie : i = e
      · subst hie
        rw [List.getElem?_set_self hel, if_pos rfl]
        have : decide (c i + 1 < ITERATIONS) = false := decide_eq_false (by omega)
        rw [this]
        rfl
      · rw [List.getElem?_set_ne (fun h => hie h.symm), hW.2 i hi, if_neg hie]
    have hlen' : (app.progress_threads_.set e
        ({ thread_ := decide (c e < ITERATIONS), id_ := e + 1, progress_ := c e + 1 } : ThreadProgress).join).length = n := by
      rw [List.length_set]; exact hlen
    have hall := all_unfinished_eq _ n (fun i => if i = e then c i + 1 else c i) hlen' hdesc
    rw [hall]
    by_cases hq : ∀ i, i < n → ITERATIONS ≤ (if i = e then c i + 1 else c i)
    · rw [decide_eq_true hq, if_pos rfl, if_pos hq]
      exact ⟨⟨hlen', hdesc⟩, rfl⟩
    · rw [decide_eq_false hq, if_neg Bool.false_ne_true, if_neg hq]
      exact ⟨⟨hlen', hdesc⟩, rfl⟩
  · rw [decide_eq_false hfin, if_neg Bool.false_ne_true]
    have hnq : ¬ ∀ i, i < n → ITERATIONS ≤ (if i = e then c i + 1 else c i) := by
      intro h
      have := h e he
      rw [if_pos rfl] at this
      omega
    rw [if_neg hnq]
    refine ⟨⟨by rw [List.length_set]; exact hlen, fun i hi => ?_⟩, rfl⟩
    beta_reduce
    by_cases hie : i = e
    · subst hie
      rw [List.getElem?_set_self hel, if_pos rfl]
      have h1 : decide (c i < ITERATIONS) = true := decide_eq_true (by omega)
      have h2 : decide (c i + 1 < ITERATIONS) = true := decide_eq_true (by omega)
      rw [h1, h2]
    · rw [List.getElem?_set_ne (fun h => hie h.symm), hW.2 i hi, if_neg hie]

theorem runEvents_inv (es : List Nat) (n : Nat) (app : Application) (c : Nat → Nat)
    (hW : WorkersAre app n c)
    (hq : app.quitCalled = decide (∀ i, i < n → ITERATIONS ≤ c i)) :
    WorkersAre (app.runEvents es) n (fun i => c i + es.count i) ∧
    (app.runEvents es).quitCalled =
      decide (∀ i, i < n → ITERATIONS ≤ c i + es.count i) := by
  induction es generalizing app c with
  | nil =>
    refine ⟨hW.congr fun i _ => by simp, ?_⟩
    simpa using hq
  | cons e es ih =>
    rw [runEvents_cons]
    by_cases he : e < n
    · have hcnt : ∀ i, i < n →
          (if i = e then c i + 1 else c i) + es.count i = c i + (e :: es).count i := by
        intro i _
        rw [List.count_cons]
        by_cases hie : i = e
        · subst hie
          rw [if_pos rfl, if_pos (by simp)]
          omega
        · rw [if_neg hie, if_neg (by simp only [beq_iff_eq]; exact fun h => hie h.symm)]
          omega
      obtain ⟨hW', hq'⟩ := on_notified_spec app n e c hW he
      have hq'' : (app.on_notified e).quitCalled =
          decide (∀ i, i < n → ITERATIONS ≤ (if i = e then c i + 1 else c i)) := by
        rw [hq']
        by_cases hp : ∀ i, i < n → ITERATIONS ≤ (if i = e then c i + 1 else c i)
        · rw [if_pos hp, decide_eq_true hp]
        · rw [if_neg hp, hq, decide_eq_false hp]
          apply decide_eq_false
          intro hold
          apply hp
          intro i hi
          have hi' := hold i hi
          by_cases hie : i = e
          · rw [if_pos hie]; omega
          · rw [if_neg hie]; omega
      obtain ⟨hW2, hq2⟩ := ih _ _ hW' hq''
      refine ⟨hW2.congr hcnt, ?_⟩
      rw [hq2]
      exact decide_eq_decide.mpr
        ⟨fun h i hi => hcnt i hi ▸ h i hi, fun h i hi => (hcnt i hi).symm ▸ h i hi⟩
    · have hcnt : ∀ i, i < n → c i + es.count i = c i + (e :: es).count i := by
        intro i hi
        rw [List.count_cons,
          if_neg (by simp only [beq_iff_eq]; omega)]
        omega
      have hoob := on_notified_oob app n e hW.1 (by omega)
      rw [hoob.1]
      obtain ⟨hW2, hq2⟩ := ih _ _ hW hq
      refine ⟨hW2.congr hcnt, ?_⟩
      rw [hq2]
      exact decide_eq_decide.mpr
        ⟨fun h i hi => hcnt i hi ▸ h i hi, fun h i hi => (hcnt i hi).symm ▸ h i hi⟩

theorem finishLog_count (es : List Nat) (n : Nat) (app : Application) (c : Nat → Nat) (i : Nat)
    (hW : WorkersAre app n c) (hi : i < n) :
    (app.finishLog es).count i = (c i + es.count i) - max (c i) (ITERATIONS - 1) := by
  induction es generalizing app c with
  | nil =>
    simp only [finishLog_nil, List.count_nil]
    omega
  | cons e es ih =>
    rw [finishLog_cons, List.count_append]
    by_cases he : e < n
    · have hnf := notifyFinishes_eq app n e c hW he
      have hW' := (on_notified_spec app n e c hW he).1
      have hrec := ih _ _ hW'
      beta_reduce at hrec
      have hhead : ((if app.notifyFinishes e then [e] else []) : List Nat).count i =
          (if ITERATIONS ≤ c e + 1 then (if i = e then 1 else 0) else 0) := by
        rw [hnf]
        by_cases hfe : ITERATIONS ≤ c e + 1
        · rw [decide_eq_true hfe, if_pos rfl, if_pos hfe, List.count_singleton]
          by_cases hie : i = e
          · subst hie
            simp
          · rw [if_neg hie, if_neg (by simp only [beq_iff_eq]; exact fun h => hie h.symm)]
        · rw [decide_eq_false hfe, if_neg Bool.false_ne_true, if_neg hfe, List.count_nil]
      rw [hhead, hrec, List.count_cons]
      simp only [beq_iff_eq]
      by_cases hie : i = e
      · subst hie
        simp only [eq_self_iff_true, if_true]
        by_cases hfe : ITERATIONS ≤ c i + 1
        · simp only [if_pos hfe]
          omega
        · simp only [if_neg hfe]
          omega
      · simp only [if_neg hie, if_neg (Ne.symm hie), ite_self]
        omega
    · have hoob := on_notified_oob app n e hW.1 (by omega)
      rw [hoob.2, if_neg Bool.false_ne_true, List.count_nil, hoob.1, ih _ _ hW,
        List.count_cons, if_neg (by simp only [beq_iff_eq]; omega)]
      omega

theorem launchedApp_workers (n : Nat) : WorkersAre (launchedApp n) n (fun _ => 0) := by
  constructor
  · simp [launchedApp]
  · intro i hi
    simp only [launchedApp]
    rw [List.getElem?_map, List.getElem?_range hi]
    rfl

theorem launchedApp_inv (n : Nat) (hn : 0 < n) (es : List Nat) :
    WorkersAre (Application.runEvents (launchedApp n) es) n (fun i => es.count i) ∧
    (Application.runEvents (launchedApp n) es).quitCalled =
      decide (∀ i, i < n → ITERATIONS ≤ es.count i) := by
  have hq0 : (launchedApp n).quitCalled =
      decide (∀ i, i < n → ITERATIONS ≤ (0 : Nat)) := by
    have : ¬ ∀ i, i < n → ITERATIONS ≤ (0 : Nat) := by
      intro h
      have := h 0 hn
      simp [ITERATIONS] at this
    rw [decide_eq_false this]
    rfl
  have h0 := runEvents_inv es n (launchedApp n) (fun _ => 0) (launchedApp_workers n) hq0
  refine ⟨h0.1.congr fun i _ => by simp, ?_⟩
  rw [h0.2]
  exact decide_eq_decide.mpr
    ⟨fun h i hi => by simpa using h i hi, fun h i hi => by simpa using h i hi⟩

/-!
Claim theorems.
-/

/-- C1: on every delivered notification the worker's progress increases by
exactly 1 — after any prefix of the delivery sequence the worker's progress
equals the number of its notifications delivered so far — a delivery emits
the finished signal exactly when it brings the progress to
`target_iterations`, and over a run delivering exactly `target_iterations`
(10) notifications for a worker, `on_progress_finished` is invoked exactly
once for that worker. -/
theorem claim_C1 (n i : Nat) (es : List Nat) (hi : i < n)
    (hcount : es.count i = ITERATIONS) :
    (∀ k, ((Application.runEvents (launchedApp n) (es.take k)).progress_threads_[i]?).map
        ThreadProgress.progress_ = some ((es.take k).count i)) ∧
    (∀ k, Application.notifyFinishes (Application.runEvents (launchedApp n) (es.take k)) i =
        decide (ITERATIONS ≤ (es.take k).count i + 1)) ∧
    ((launchedApp n).finishLog es).count i = 1 := by
  have hn : 0 < n := by omega
  refine ⟨?_, ?_, ?_⟩
  · intro k
    have h := (launchedApp_inv n hn (es.take k)).1
    rw [h.2 i hi]
    rfl
  · intro k
    have h := (launchedApp_inv n hn (es.take k)).1
    exact notifyFinishes_eq _ n i _ h hi
  · have h := finishLog_count es n (launchedApp n) (fun _ => 0) i (launchedApp_workers n) hi
    beta_reduce at h
    rw [h, hcount]
    simp only [ITERATIONS]
    omega

theorem claim_C1_witness :
    (List.replicate 10 0).count 0 = ITERATIONS ∧
    ((launchedApp 4).finishLog (List.replicate 10 0)).count 0 = 1 :=
  ⟨by decide, (claim_C1 4 0 (List.replicate 10 0) (by decide) (by decide)).2.2⟩

/-- C2: after any sequence of delivered notifications, the main loop has
been told to quit iff every one of the `n` workers has received at least
`target_iterations` notifications; once quit has been called every worker's
thread handle is already null (the worker was joined); and
`on_progress_finished` always joins the worker it is invoked for. -/
theorem claim_C2 (n : Nat) (es : List Nat) (hn : 0 < n) :
    ((Application.runEvents (launchedApp n) es).quitCalled = true ↔
      ∀ i, i < n → ITERATIONS ≤ es.count i) ∧
    ((Application.runEvents (launchedApp n) es).quitCalled = true →
      ∀ i, i < n → (Application.runEvents (launchedApp n) es).progress_threads_[i]? =
        some { thread_ := false, id_ := i + 1, progress_ := es.count i }) ∧
    (∀ (app : Application) (j : Nat) (tp : ThreadProgress),
      app.progress_threads_[j]? = some tp →
      ((app.on_progress_finished j).progress_threads_[j]?).map ThreadProgress.thread_ =
        some false) := by
  obtain ⟨hW, hq⟩ := launchedApp_inv n hn es
  have hget := hW.2
  beta_reduce at hget
  refine ⟨?_, ?_, ?_⟩
  · rw [hq]
    exact ⟨of_decide_eq_true, decide_eq_true⟩
  · intro hquit i hi
    rw [hq] at hquit
    have hP := of_decide_eq_true hquit
    rw [hget i hi]
    have hf : decide (es.count i < ITERATIONS) = false :=
      decide_eq_false (by have := hP i hi; omega)
    rw [hf]
  · intro app j tp hget'
    have hj : j < app.progress_threads_.length := (List.getElem?_eq_some.mp hget').1
    rw [on_progress_finished_eq app j tp hget']
    by_cases hall : ((app.progress_threads_.set j tp.join).all fun tp => !tp.unfinished) = true
    · rw [if_pos hall]
      show ((app.progress_threads_.set j tp.join)[j]?).map ThreadProgress.thread_ = some false
      rw [List.getElem?_set_self hj]
      rfl
    · rw [if_neg hall]
      show ((app.progress_threads_.set j tp.join)[j]?).map ThreadProgress.thread_ = some false
      rw [List.getElem?_set_self hj]
      rfl

theorem claim_C2_witness :
    (0 < 2) ∧
    ((Application.runEvents (launchedApp 2)
        (List.replicate 10 0 ++ List.replicate 10 1)).quitCalled = true ↔
      ∀ i, i < 2 → ITERATIONS ≤ (List.replicate 10 0 ++ List.replicate 10 1).count i) :=
  ⟨by decide, (claim_C2 2 (List.replicate 10 0 ++ List.replicate 10 1) (by decide)).1⟩

theorem count_emit_pairs (f : Nat → Nat) (l : List Nat) :
    ((l.flatMap fun i => [ThreadAction.usleep (f i), ThreadAction.emit_increment]).count
      ThreadAction.emit_increment) = l.length := by
  induction l with
  | nil => rfl
  | cons a l ih =>
    rw [List.flatMap_cons, List.count_append, ih]
    simp [List.count_cons]
    omega

/-- C3: for any sequence of random draws, the worker's thread body performs
exactly `target_iterations` (10) loop iterations, emitting one
`signal_increment_` notification per iteration — exactly 10 notifications —
and 4 workers (with any draws each) emit 40 notifications in total. -/
theorem claim_C3 (raws : Nat → Nat) :
    (ThreadProgress.thread_function raws).count ThreadAction.emit_increment = ITERATIONS ∧
    ITERATIONS = 10 ∧
    (∀ oracles : List (Nat → Nat), oracles.length = 4 →
      (oracles.map fun r =>
        (ThreadProgress.thread_function r).count ThreadAction.emit_increment).sum = 40) := by
  have hcnt : ∀ r : Nat → Nat,
      (ThreadProgress.thread_function r).count ThreadAction.emit_increment = ITERATIONS := by
    intro r
    unfold ThreadProgress.thread_function
    rw [count_emit_pairs, List.length_range]
  refine ⟨hcnt raws, rfl, ?_⟩
  intro oracles hlen
  have hmap : (oracles.map fun r =>
      (ThreadProgress.thread_function r).count ThreadAction.emit_increment) =
      List.replicate oracles.length ITERATIONS := by
    rw [show (fun r : Nat → Nat =>
        (ThreadProgress.thread_function r).count ThreadAction.emit_increment) =
        Function.const (Nat → Nat) ITERATIONS from funext fun r => hcnt r]
    exact List.map_const oracles ITERATIONS
  rw [hmap, hlen, List.sum_replicate]
  rfl

theorem claim_C3_witness :
    (ThreadProgress.thread_function (fun _ => 0)).count ThreadAction.emit_increment =
      ITERATIONS :=
  (claim_C3 fun _ => 0).1

/-- C4 counterexample: a worker whose thread handle is still non-null (its
thread was launched and never joined) runs the destructor's lifecycle check
without aborting the process — `g_return_if_fail` is not fatal — refuting
the claim that the check is a fatal assertion. -/
theorem claim_C4_counterexample :
    ((ThreadProgress.construct 1).launch).thread_ = true ∧
    ((ThreadProgress.construct 1).launch).destructor.processAborted = false :=
  ⟨rfl, rfl⟩

/-- C4 (amended): destroying a worker whose thread handle is still non-null
triggers the destructor's lifecycle check, which logs a critical diagnostic
(never silent) and returns early; by default the check does not abort the
process — it is a diagnosed contract violation, not a fatal assertion. -/
theorem claim_C4 (tp : ThreadProgress) (h : tp.thread_ = true) :
    tp.destructor = { criticalLogged := true, processAborted := false } := by
  unfold ThreadProgress.destructor
  rw [h]
  rfl

theorem claim_C4_witness :
    ((ThreadProgress.construct 1).launch).thread_ = true ∧
    ((ThreadProgress.construct 1).launch).destructor =
      { criticalLogged := true, processAborted := false } :=
  ⟨rfl, claim_C4 ((ThreadProgress.construct 1).launch) rfl⟩

/-- C5 counterexample: the upper endpoint 20000 µs (20 ms) is not an
attainable outcome of `rand.get_int_range(2000, 20000)` — the range is
end-exclusive — refuting the claim that both endpoints of a closed
[2 ms, 20 ms] interval are attainable. -/
theorem claim_C5_counterexample :
    ¬ ∃ raw : Nat, Rand.get_int_range 2000 20000 raw = 20000 := by
  rintro ⟨raw, h⟩
  unfold Rand.get_int_range at h
  have : raw % (20000 - 2000) < 18000 := Nat.mod_lt _ (by norm_num)
  omega

/-- C5 (amended): every per-iteration sleep duration drawn by
`rand.get_int_range(2000, 20000)` lies in the half-open interval
[2000 µs, 20000 µs): at least 2000, strictly below 20000; 2000 µs and
19999 µs are both attainable, while 20000 µs is not. -/
theorem claim_C5 :
    (∀ raw : Nat, 2000 ≤ Rand.get_int_range 2000 20000 raw ∧
      Rand.get_int_range 2000 20000 raw < 20000) ∧
    (∃ raw : Nat, Rand.get_int_range 2000 20000 raw = 2000) ∧
    (∃ raw : Nat, Rand.get_int_range 2000 20000 raw = 19999) := by
  refine ⟨?_, ⟨0, by decide⟩, ⟨17999, by decide⟩⟩
  intro raw
  unfold Rand.get_int_range
  have : raw % (20000 - 2000) < 18000 := Nat.mod_lt _ (by norm_num)
  omega

/-- C6: if constructing worker `k` (0-based, `k < 4`) throws inside the
`Application` constructor loop, the `catch` handler destroys exactly the
already-created workers (those with ids `1..k`) before the exception is
re-raised to the caller — no partially constructed worker leaks. -/
theorem claim_C6 (k : Nat) (hk : k < 4) :
    Application.construct_failing (some k) =
      .error ((List.range k).map fun i => ThreadProgress.construct (i + 1)) := by
  interval_cases k <;> rfl

theorem claim_C6_witness :
    Application.construct_failing (some 2) =
      .error ((List.range 2).map fun i => ThreadProgress.construct (i + 1)) :=
  claim_C6 2 (by decide)

theorem launchInvocations_fired (s : Application × TimeoutSource) (m : Nat)
    (h : s.2.fired = true) : launchInvocations s m = 0 := by
  induction m generalizing s with
  | zero => rfl
  | succ m ih =>
    have ht : timeoutTick s = s := by
      unfold timeoutTick
      rw [h, if_pos rfl]
    unfold launchInvocations
    rw [h, if_pos rfl, ht, ih s h]

theorem runTicks_fired (s : Application × TimeoutSource) (m : Nat)
    (h : s.2.fired = true) : runTicks s m = s := by
  induction m generalizing s with
  | zero => rfl
  | succ m ih =>
    have ht : timeoutTick s = s := by
      unfold timeoutTick
      rw [h, if_pos rfl]
    unfold runTicks
    rw [ht, ih s h]

/-- C7: `run()` installs `launch_threads` as a one-shot deferred action with
a fixed 3000 ms delay on the loop; over any positive number of delivered
timer expiries the `launch_threads` slot runs exactly once; and when it
fires on the 4-worker application it calls `launch` on every worker, leaving
all 4 with live thread handles (the launched coordinator state). -/
theorem claim_C7 (app : Application) (m : Nat) (hm : 1 ≤ m) :
    app.run_install.2.delayMs = 3000 ∧
    app.run_install.2.fired = false ∧
    launchInvocations app.run_install m = 1 ∧
    Application.construct.launch_threads = launchedApp 4 ∧
    (runTicks Application.construct.run_install m).1 = launchedApp 4 := by
  obtain ⟨m', rfl⟩ : ∃ m', m = m' + 1 := ⟨m - 1, by omega⟩
  refine ⟨rfl, rfl, ?_, ?_, ?_⟩
  · unfold launchInvocations
    have h2 : (timeoutTick app.run_install).2.fired = true := rfl
    rw [launchInvocations_fired _ _ h2]
    rfl
  · rfl
  · unfold runTicks
    have h2 : (timeoutTick Application.construct.run_install).2.fired = true := rfl
    rw [runTicks_fired _ _ h2]
    rfl

theorem claim_C7_witness :
    1 ≤ 3 ∧ launchInvocations Application.construct.run_install 3 = 1 :=
  ⟨by decide, (claim_C7 Application.construct 3 (by decide)).2.2.1⟩

theorem applyAll_progress_mono (ops : List TPOp) (tp : ThreadProgress) :
    tp.progress_ ≤ (TPOp.applyAll ops tp).progress_ := by
  induction ops generalizing tp with
  | nil => exact Nat.le_refl _
  | cons op ops ih =>
    have h1 : tp.progress_ ≤ (op.apply tp).progress_ := by
      cases op
      · exact Nat.le_refl _
      · exact Nat.le_refl _
      · exact Nat.le_succ _
    exact Nat.le_trans h1 (ih (op.apply tp))

/-- C9: the worker's progress counter is monotone — `launch` and `join`
leave it unchanged, `progress_increment` is the only mutating operation
that changes it and it adds exactly 1 — and once `unfinished()` has become
false, no further sequence of operations makes the worker unfinished
again. -/
theorem claim_C9 (op : TPOp) (tp : ThreadProgress) (ops : List TPOp) :
    tp.progress_ ≤ (op.apply tp).progress_ ∧
    ((op.apply tp).progress_ = tp.progress_ + 1 ↔ op = TPOp.progress_increment) ∧
    (op ≠ TPOp.progress_increment → (op.apply tp).progress_ = tp.progress_) ∧
    tp.progress_ ≤ (TPOp.applyAll ops tp).progress_ ∧
    (tp.unfinished = false → (TPOp.applyAll ops tp).unfinished = false) := by
  refine ⟨?_, ⟨?_, ?_⟩, ?_, applyAll_progress_mono ops tp, ?_⟩
  · cases op
    · exact Nat.le_refl _
    · exact Nat.le_refl _
    · exact Nat.le_succ _
  · intro h
    cases op
    · have h' : tp.progress_ = tp.progress_ + 1 := h
      exact absurd h' (by omega)
    · have h' : tp.progress_ = tp.progress_ + 1 := h
      exact absurd h' (by omega)
    · rfl
  · intro h
    subst h
    rfl
  · intro h
    cases op
    · rfl
    · rfl
    · exact absurd rfl h
  · intro h
    have hm := applyAll_progress_mono ops tp
    have h' : ¬ tp.progress_ < ITERATIONS := by
      simpa [ThreadProgress.unfinished] using h
    show decide ((TPOp.applyAll ops tp).progress_ < ITERATIONS) = false
    exact decide_eq_false (by omega)

theorem claim_C9_witness :
    (TPOp.progress_increment.apply (ThreadProgress.construct 1)).progress_ =
      (ThreadProgress.construct 1).progress_ + 1 :=
  (claim_C9 TPOp.progress_increment (ThreadProgress.construct 1) []).2.1.mpr rfl

/-- C10: a freshly constructed worker has progress 0, reports
`unfinished() = true`, and has a null thread handle, so running its
destructor passes the lifecycle check — no critical diagnostic and no
abort: destroying a never-launched worker is not a contract violation. -/
theorem claim_C10 (the_id : Nat) :
    (ThreadProgress.construct the_id).progress_ = 0 ∧
    (ThreadProgress.construct the_id).unfinished = true ∧
    (ThreadProgress.construct the_id).thread_ = false ∧
    (ThreadProgress.construct the_id).destructor =
      { criticalLogged := false, processAborted := false } :=
  ⟨rfl, rfl, rfl, rfl⟩

theorem claim_C10_witness :
    (ThreadProgress.construct 7).unfinished = true ∧
    (ThreadProgress.construct 7).destructor =
      { criticalLogged := false, processAborted := false } :=
  ⟨(claim_C10 7).2.1, (claim_C10 7).2.2.2⟩
